import Mathlib

/-
Verification of the websocket client handshake of minihttp
(src/server/error.rs, src/websocket/client.rs).

Wire data is modelled as `List Char` (the sources work over ASCII bytes).
The collaborators that live outside this repository's sources
(base_serializer::MessageState, the httparse response parser, the
tk_bufstream buffered halves, and websocket::Key) are modelled from the
spec, as marked on their doc comments; everything else is translated
directly from src/websocket/client.rs.
-/

namespace Minihttp

/-- CRLF line terminator as a character list. -/
def crlf : List Char := ['\r', '\n']

/-- ASCII lowercase of one character, as Rust u8::to_ascii_lowercase. -/
def asciiLower (c : Char) : Char :=
  if 'A' ≤ c ∧ c ≤ 'Z' then Char.ofNat (c.toNat + 32) else c

/-- Model of Rust str::eq_ignore_ascii_case on character lists. -/
def eqIgnoreAsciiCase (a b : List Char) : Bool :=
  a.map asciiLower == b.map asciiLower

/-- Translation of check_header (src/websocket/client.rs lines 126-133):
true means the Rust function panics ("You shouldn't set websocket specific
headers yourself"). Note the source compares against exactly three names. -/
def check_header (name : List Char) : Bool :=
  eqIgnoreAsciiCase name (("Connection").data) ||
  eqIgnoreAsciiCase name (("Upgrade").data) ||
  eqIgnoreAsciiCase name (("Sec-Websocket-Key").data)

/-- Modelled from the spec: the writer-progress state machine of
base_serializer::MessageState (absent from src/): request line first, then
headers, then the terminator, irreversibly. -/
inductive MessageState where
  | RequestStart
  | Headers
  | Done
deriving DecidableEq

/-- Result of an encoder operation: success, a recoverable header error, or
a programmer-contract violation (a panic in the Rust source). The
recoverable case is never produced by this model (header-value validation
lives in the absent base_serializer); it is kept to mirror the interface. -/
inductive EncRes (α : Type) where
  | ok (a : α)
  | headerError
  | contractViolation
deriving DecidableEq

/-- Serialized bytes of one header line: name, colon, space, value, CRLF. -/
def headerBytes (name value : List Char) : List Char :=
  name ++ ':' :: ' ' :: value ++ crlf

/-- Modelled from the spec: MessageState::add_header appends one header line
while headers are in progress; any other state is a contract violation. -/
def MessageState.add_header (st : MessageState) (out : List Char)
    (name value : List Char) : EncRes (MessageState × List Char) :=
  match st with
  | .Headers => .ok (.Headers, out ++ headerBytes name value)
  | _ => .contractViolation

/-- Modelled from the spec: MessageState::request_line writes the request
line exactly once, before any header (method GET, version HTTP/1.1 fixed by
the caller in the source). -/
def MessageState.request_line (st : MessageState) (out : List Char)
    (path : List Char) : EncRes (MessageState × List Char) :=
  match st with
  | .RequestStart =>
      .ok (.Headers, out ++ (("GET ").data) ++ path ++ ((" HTTP/1.1").data) ++ crlf)
  | _ => .contractViolation

/-- Modelled from the spec: MessageState::done_headers appends the
header-block terminator and reports whether the body is to be ignored
(true for this bodyless GET upgrade request). -/
def MessageState.done_headers (st : MessageState) (out : List Char) :
    EncRes (MessageState × List Char × Bool) :=
  match st with
  | .Headers => .ok (.Done, out ++ crlf, true)
  | _ => .contractViolation

/-- The request writer of src/websocket/client.rs: a MessageState plus the
output buffer it writes into. -/
structure Encoder where
  message : MessageState
  buf : List Char
deriving DecidableEq

/-- Translation of Encoder::request_line. -/
def Encoder.request_line (e : Encoder) (path : List Char) : EncRes Encoder :=
  match MessageState.request_line e.message e.buf path with
  | .ok (st, out) => .ok ⟨st, out⟩
  | .headerError => .headerError
  | .contractViolation => .contractViolation

/-- Translation of Encoder::add_header: the reserved-name check first (a
panic on violation), then the message-state append. -/
def Encoder.add_header (e : Encoder) (name value : List Char) : EncRes Encoder :=
  if check_header name then .contractViolation
  else
    match MessageState.add_header e.message e.buf name value with
    | .ok (st, out) => .ok ⟨st, out⟩
    | .headerError => .headerError
    | .contractViolation => .contractViolation

/-- Translation of Encoder::format_header: as add_header, with the value
already rendered to characters (the Display output). -/
def Encoder.format_header (e : Encoder) (name value : List Char) : EncRes Encoder :=
  Encoder.add_header e name value

/-- Translation of Encoder::done: appends the four fixed upgrade headers
(the Sec-WebSocket-Key value produced by websocket::Key::new is modelled as
the parameter key), then the terminator, asserting that no body is
expected; returns the buffer held by the EncoderDone completion token.
Each unwrap of the source is a contract violation on the error branch. -/
def Encoder.done (e : Encoder) (key : List Char) : EncRes (List Char) :=
  match MessageState.add_header e.message e.buf (("Connection").data) (("upgrade").data) with
  | .ok (st1, b1) =>
    match MessageState.add_header st1 b1 (("Upgrade").data) (("websocket").data) with
    | .ok (st2, b2) =>
      match MessageState.add_header st2 b2 (("Sec-WebSocket-Key").data) key with
      | .ok (st3, b3) =>
        match MessageState.add_header st3 b3 (("Sec-WebSocket-Version").data) (("13").data) with
        | .ok (st4, b4) =>
          match MessageState.done_headers st4 b4 with
          | .ok (_, b5, ignoreBody) =>
              if ignoreBody then .ok b5 else .contractViolation
          | _ => .contractViolation
        | _ => .contractViolation
      | _ => .contractViolation
    | _ => .contractViolation
  | _ => .contractViolation

/-- The borrowed response head handed to Authorizer::headers_received:
version (1 stands for the source's Version::Http11), status code, reason
phrase and the raw header list. -/
structure Head where
  version : Nat
  code : Nat
  reason : List Char
  headers : List (List Char × List Char)
deriving DecidableEq

/-- Translation of SimpleAuthorizer::write_headers: request line, Host,
Origin (http:// plus host plus path), User-Agent (tk-http/ plus the crate
version, modelled as the parameter ua), then done with the given key. Each
unwrap of the source turns a recoverable error into a contract violation. -/
def SimpleAuthorizer.write_headers (host path key ua : List Char)
    (e : Encoder) : EncRes (List Char) :=
  match e.request_line path with
  | .ok e1 =>
    match e1.add_header (("Host").data) host with
    | .ok e2 =>
      match e2.format_header (("Origin").data) ((("http://").data) ++ host ++ path) with
      | .ok e3 =>
        match e3.add_header (("User-Agent").data) ((("tk-http/").data) ++ ua) with
        | .ok e4 => e4.done key
        | _ => .contractViolation
      | _ => .contractViolation
    | _ => .contractViolation
  | _ => .contractViolation

/-- Translation of SimpleAuthorizer::headers_received: always succeeds with
unit output, for any error type. -/
def SimpleAuthorizer.headers_received (ε : Type) (_h : Head) : Except ε Unit :=
  .ok ()

/-- Number of headers to allocate on a stack (MIN_HEADERS in the source). -/
def MIN_HEADERS : Nat := 16

/-- A hard limit on the number of headers (MAX_HEADERS in the source). -/
def MAX_HEADERS : Nat := 1024

/-- Errors of the modelled external header parser: header count over
capacity, or any other malformed input. -/
inductive HttparseError where
  | tooManyHeaders
  | malformed
deriving DecidableEq

/-- Intermediate result of one parsing step: a value with the remaining
input, a need for more input, or a hard parse error. -/
inductive PRes (α : Type) where
  | ok (a : α) (rest : List Char)
  | more
  | bad (e : HttparseError)
deriving DecidableEq

/-- Match an expected literal character sequence at the head of the input. -/
def expectStr : List Char → List Char → PRes Unit
  | [], input => .ok () input
  | _ :: _, [] => .more
  | l :: ls, c :: cs => if c = l then expectStr ls cs else .bad .malformed

/-- Numeric value of an ASCII digit. -/
def digitVal (c : Char) : Option Nat :=
  if '0' ≤ c ∧ c ≤ '9' then some (c.toNat - 48) else none

/-- Modelled from the spec: the external parser's version field of the
status line, the literal HTTP/1. followed by 0 or 1. -/
def parseVersion (input : List Char) : PRes Nat :=
  match expectStr (("HTTP/1.").data) input with
  | .ok _ rest =>
    match rest with
    | [] => .more
    | c :: cs =>
      if c = '0' then .ok 0 cs
      else if c = '1' then .ok 1 cs
      else .bad .malformed
  | .more => .more
  | .bad e => .bad e

/-- Modelled from the spec: the three-digit status code. -/
def parseCode : List Char → PRes Nat
  | c1 :: c2 :: c3 :: rest =>
    match digitVal c1, digitVal c2, digitVal c3 with
    | some a, some b, some c => .ok (a * 100 + b * 10 + c) rest
    | _, _, _ => .bad .malformed
  | l => if l.all (fun c => (digitVal c).isSome) then .more else .bad .malformed

/-- Modelled from the spec: the reason phrase, the characters before the
CRLF that ends the status line. -/
def parseReason (input : List Char) : PRes (List Char) :=
  let r := input.takeWhile (fun c => c != '\r')
  match input.dropWhile (fun c => c != '\r') with
  | [] => .more
  | [_] => .more
  | _ :: c2 :: rest => if c2 = '\n' then .ok r rest else .bad .malformed

/-- Modelled from the spec: after the status code, either a space then a
reason phrase, or an immediate CRLF with an empty reason. -/
def parseStatusTail (input : List Char) : PRes (List Char) :=
  match input with
  | [] => .more
  | c :: rest =>
    if c = ' ' then parseReason rest
    else if c = '\r' then
      match rest with
      | [] => .more
      | c2 :: rest2 => if c2 = '\n' then .ok [] rest2 else .bad .malformed
    else .bad .malformed

/-- Modelled from the spec: one header line; the name is everything before
the colon, leading spaces are stripped from the value, and the value runs
up to the CRLF. -/
def parseHeaderLine (input : List Char) : PRes (List Char × List Char) :=
  let pname := fun c => c != ':' && c != '\r' && c != '\n'
  let name := input.takeWhile pname
  match input.dropWhile pname with
  | [] => .more
  | c :: rest =>
    if c = ':' then
      if name.isEmpty then .bad .malformed
      else
        let rest2 := rest.dropWhile (fun c => c == ' ')
        let value := rest2.takeWhile (fun c => c != '\r')
        match rest2.dropWhile (fun c => c != '\r') with
        | [] => .more
        | [_] => .more
        | _ :: c2 :: rest3 =>
          if c2 = '\n' then .ok (name, value) rest3 else .bad .malformed
    else .bad .malformed

/-- Modelled from the spec: the header loop of the external parser, bounded
by the slot capacity cap; a header that would need a slot beyond cap is a
too-many-headers failure. The fuel argument only bounds the recursion and
is always sufficient when instantiated with the input length. -/
def headersLoop (cap : Nat) : Nat → List Char →
    List (List Char × List Char) → PRes (List (List Char × List Char))
  | 0, _, _ => .more
  | fuel + 1, input, acc =>
    match input with
    | [] => .more
    | c :: rest =>
      if c = '\r' then
        match rest with
        | [] => .more
        | c2 :: rest2 =>
          if c2 = '\n' then .ok acc.reverse rest2 else .bad .malformed
      else if cap ≤ acc.length then .bad .tooManyHeaders
      else
        match parseHeaderLine (c :: rest) with
        | .ok h r => headersLoop cap fuel r (h :: acc)
        | .more => .more
        | .bad e => .bad e

/-- Outcome of the modelled external response parser: a completed head with
the number of consumed characters, incomplete input, or an error. -/
inductive ParseOut where
  | complete (h : Head) (consumed : Nat)
  | incomplete
  | err (e : HttparseError)
deriving DecidableEq

/-- Modelled from the spec: the external httparse-style response parser
with a header table of the given capacity; a status line, then the header
block, reporting the consumed span on completion. -/
def responseParse (cap : Nat) (input : List Char) : ParseOut :=
  match parseVersion input with
  | .more => .incomplete
  | .bad e => .err e
  | .ok v r1 =>
    match r1 with
    | [] => .incomplete
    | c :: r2 =>
      if c = ' ' then
        match parseCode r2 with
        | .more => .incomplete
        | .bad e => .err e
        | .ok code r3 =>
          match parseStatusTail r3 with
          | .more => .incomplete
          | .bad e => .err e
          | .ok reason r4 =>
            match headersLoop cap (r4.length + 1) r4 [] with
            | .more => .incomplete
            | .bad e => .err e
            | .ok hs r5 =>
              .complete ⟨v, code, reason, hs⟩ (input.length - r5.length)
      else .err .malformed

/-- Handshake error taxonomy of the source (websocket ErrorEnum), with the
authorizer's own error type embedded. -/
inductive HsError (ε : Type) where
  | io
  | headerError (e : HttparseError)
  | prematureResponseHeaders
  | authErr (e : ε)
deriving DecidableEq

/-- Result of HandshakeProto::parse_headers: Ok(Some), Ok(None) or Err of
the source, plus an aborted outcome for the unimplemented-version panic. -/
inductive PHOut (ε α : Type) where
  | ok (x : Option α)
  | fail (e : HsError ε)
  | aborted
deriving DecidableEq

/-- The two-tier parse inside HandshakeProto::parse_headers (lines 236-245):
a MIN_HEADERS-slot attempt, re-run once with MAX_HEADERS slots exactly when
the first attempt failed with too many headers. -/
def twoTier (buf : List Char) : ParseOut :=
  match responseParse MIN_HEADERS buf with
  | .err .tooManyHeaders => responseParse MAX_HEADERS buf
  | r => r

/-- Translation of HandshakeProto::parse_headers (lines 231-270): two-tier
parse, the version guard (the source hits unimplemented, a panic, when the
version is not 1), the authorizer callback, and consumption of the parsed
span only after the authorizer succeeds. Returns the outcome together with
the input buffer left behind. -/
def HandshakeProto.parse_headers (auth : Head → Except ε α)
    (buf : List Char) : PHOut ε α × List Char :=
  match twoTier buf with
  | .err e => (.fail (.headerError e), buf)
  | .incomplete => (.ok none, buf)
  | .complete ph n =>
    if ph.version ≠ 1 then (.aborted, buf)
    else
      match auth { ph with version := 1 } with
      | .error e => (.fail (.authErr e), buf)
      | .ok a => (.ok (some a), buf.drop n)

/-- One step outcome of the handshake future: ready with the authorizer's
result, not ready, a terminal error, or an aborting panic. -/
inductive PollOut (ε α : Type) where
  | ready (a : α)
  | notReady
  | fail (e : HsError ε)
  | aborted
deriving DecidableEq

/-- Translation of HandshakeProto::poll (lines 280-300), over the state
reached after this step's flush and read: a flush error, a read error, the
end-of-stream check (premature response headers), then parse_headers. The
two booleans stand for the outcomes of the flush and read calls on the
buffered halves (absent from src/, modelled from the spec); closed is the
result of the input half's done(). Returns the outcome and the remaining
input buffer. -/
def HandshakeProto.poll (auth : Head → Except ε α)
    (flushErr readErr closed : Bool) (buf : List Char) :
    PollOut ε α × List Char :=
  if flushErr then (.fail .io, buf)
  else if readErr then (.fail .io, buf)
  else if closed then (.fail .prematureResponseHeaders, buf)
  else
    match HandshakeProto.parse_headers auth buf with
    | (.ok (some a), b) => (.ready a, b)
    | (.ok none, b) => (.notReady, b)
    | (.fail e, b) => (.fail e, b)
    | (.aborted, b) => (.aborted, b)

/-- Serialized header list, one CRLF-terminated line per header. -/
def serHeaders : List (List Char × List Char) → List Char
  | [] => []
  | h :: t => headerBytes h.1 h.2 ++ serHeaders t

/-- A header name the modelled parser reads back verbatim: nonempty and
without colon, CR or LF. -/
def goodName (n : List Char) : Bool :=
  !n.isEmpty && n.all (fun c => c != ':' && c != '\r' && c != '\n')

/-- A header value the modelled parser reads back verbatim: no CR or LF,
not starting with a space. -/
def goodValue (v : List Char) : Bool :=
  v.all (fun c => c != '\r' && c != '\n') && !(v.head? == some ' ')

/-- A header whose serialized line parses back to itself. -/
def goodHeader (h : List Char × List Char) : Bool :=
  goodName h.1 && goodValue h.2

/-- A reason phrase read back verbatim: no CR. -/
def goodReason (r : List Char) : Bool := r.all (fun c => c != '\r')

/-- Status code value of three digit characters. -/
def codeVal (c1 c2 c3 : Char) : Nat :=
  (digitVal c1).getD 0 * 100 + (digitVal c2).getD 0 * 10 + (digitVal c3).getD 0

/-- A serialized HTTP/1.1 response: status line with a three-digit code and
a reason phrase, the header block, and the terminator. -/
def mkResponse (c1 c2 c3 : Char) (reason : List Char)
    (hs : List (List Char × List Char)) : List Char :=
  (("HTTP/1.1 ").data) ++ c1 :: c2 :: c3 :: ' ' ::
    (reason ++ '\r' :: '\n' :: (serHeaders hs ++ '\r' :: '\n' :: []))

/-! Helper lemmas about the modelled parser. -/

theorem expectStr_self_append (lit rest : List Char) :
    expectStr lit (lit ++ rest) = .ok () rest := by
  induction lit with
  | nil => rfl
  | cons c cs ih => simp [expectStr, ih]

theorem takeWhile_all_append {p : Char → Bool} (a b : List Char)
    (h : ∀ c ∈ a, p c = true) :
    (a ++ b).takeWhile p = a ++ b.takeWhile p := by
  induction a with
  | nil => simp
  | cons c cs ih =>
      have hc : p c = true := h c (List.mem_cons_self c cs)
      simp only [List.cons_append, List.takeWhile_cons, hc]
      simp [ih fun d hd => h d (List.mem_cons_of_mem c hd)]

theorem dropWhile_all_append {p : Char → Bool} (a b : List Char)
    (h : ∀ c ∈ a, p c = true) :
    (a ++ b).dropWhile p = b.dropWhile p := by
  induction a with
  | nil => simp
  | cons c cs ih =>
      have hc : p c = true := h c (List.mem_cons_self c cs)
      simp only [List.cons_append, List.dropWhile_cons, hc]
      simp [ih fun d hd => h d (List.mem_cons_of_mem c hd)]

theorem takeWhile_head_false {p : Char → Bool} {c : Char} (b : List Char)
    (h : p c = false) : (c :: b).takeWhile p = [] := by
  simp [List.takeWhile_cons, h]

theorem dropWhile_head_false {p : Char → Bool} {c : Char} (b : List Char)
    (h : p c = false) : (c :: b).dropWhile p = c :: b := by
  simp [List.dropWhile_cons, h]

theorem dropWhile_eq_self_of_head {p : Char → Bool} (xs : List Char)
    (h : ∀ c, xs.head? = some c → p c = false) : xs.dropWhile p = xs := by
  cases xs with
  | nil => rfl
  | cons c cs => exact dropWhile_head_false cs (h c rfl)

theorem parseHeaderLine_ser (n v rest : List Char)
    (hn : goodName n = true) (hv : goodValue v = true) :
    parseHeaderLine (n ++ ':' :: ' ' :: (v ++ '\r' :: '\n' :: rest))
      = .ok (n, v) rest := by
  obtain ⟨hne, hnall⟩ := Bool.and_eq_true _ _ |>.mp hn
  obtain ⟨hvall, hvsp⟩ := Bool.and_eq_true _ _ |>.mp hv
  have hnall' : ∀ c ∈ n, (c != ':' && c != '\r' && c != '\n') = true :=
    List.all_eq_true.mp hnall
  have hvcr : ∀ c ∈ v, (c != '\r') = true := fun c hc =>
    (Bool.and_eq_true _ _ |>.mp (List.all_eq_true.mp hvall c hc)).1
  have hvhead : ∀ c, v.head? = some c → (c == ' ') = false := by
    intro c hc
    cases hbe : c == ' ' with
    | false => rfl
    | true =>
        exfalso
        have hc' : c = ' ' := eq_of_beq hbe
        subst hc'
        rw [hc] at hvsp
        simp at hvsp
  have hempty : n.isEmpty = false := by simpa using hne
  have hdropName :
      (n ++ ':' :: ' ' :: (v ++ '\r' :: '\n' :: rest)).dropWhile
        (fun c => c != ':' && c != '\r' && c != '\n')
        = ':' :: ' ' :: (v ++ '\r' :: '\n' :: rest) := by
    rw [dropWhile_all_append _ _ hnall']
    exact dropWhile_head_false _ (by decide)
  have htakeName :
      (n ++ ':' :: ' ' :: (v ++ '\r' :: '\n' :: rest)).takeWhile
        (fun c => c != ':' && c != '\r' && c != '\n') = n := by
    rw [takeWhile_all_append _ _ hnall', takeWhile_head_false _ (by decide),
      List.append_nil]
  have hdropSp :
      (' ' :: (v ++ '\r' :: '\n' :: rest)).dropWhile (fun c => c == ' ')
        = v ++ '\r' :: '\n' :: rest := by
    rw [List.dropWhile_cons_of_pos (by decide)]
    apply dropWhile_eq_self_of_head
    intro c hc
    cases v with
    | nil =>
        simp only [List.nil_append, List.head?_cons, Option.some.injEq] at hc
        subst hc; decide
    | cons v0 vs =>
        simp only [List.cons_append, List.head?_cons, Option.some.injEq] at hc
        subst hc
        exact hvhead v0 rfl
  have htakeVal :
      (v ++ '\r' :: '\n' :: rest).takeWhile (fun c => c != '\r') = v := by
    rw [takeWhile_all_append _ _ hvcr, takeWhile_head_false _ (by decide),
      List.append_nil]
  have hdropVal :
      (v ++ '\r' :: '\n' :: rest).dropWhile (fun c => c != '\r')
        = '\r' :: '\n' :: rest := by
    rw [dropWhile_all_append _ _ hvcr]
    exact dropWhile_head_false _ (by decide)
  simp only [parseHeaderLine, hdropName, htakeName, hdropSp, htakeVal, hdropVal]
  simp [hempty]

theorem length_le_serHeaders (hs : List (List Char × List Char)) :
    hs.length ≤ (serHeaders hs).length := by
  induction hs with
  | nil => simp [serHeaders]
  | cons h t ih =>
      have hb : (headerBytes h.1 h.2).length = h.1.length + h.2.length + 4 := by
        simp [headerBytes, crlf]
        omega
      simp only [serHeaders, List.length_cons, List.length_append, hb]
      omega

theorem headersLoop_ser (cap : Nat) (hs : List (List Char × List Char)) :
    ∀ (acc : List (List Char × List Char)) (tail : List Char) (fuel : Nat),
      (∀ h ∈ hs, goodHeader h = true) →
      acc.length + hs.length ≤ cap →
      hs.length < fuel →
      headersLoop cap fuel (serHeaders hs ++ '\r' :: '\n' :: tail) acc
        = .ok (acc.reverse ++ hs) tail := by
  induction hs with
  | nil =>
      intro acc tail fuel _ _ hfuel
      cases fuel with
      | zero => exact absurd hfuel (by omega)
      | succ f => simp [serHeaders, headersLoop]
  | cons h t ih =>
      intro acc tail fuel hgood hcap hfuel
      cases fuel with
      | zero => exact absurd hfuel (by omega)
      | succ f =>
          obtain ⟨hname, hval⟩ := Bool.and_eq_true _ _ |>.mp
            (hgood h (List.mem_cons_self h t))
          obtain ⟨hne, hnall⟩ := Bool.and_eq_true _ _ |>.mp hname
          cases hh1 : h.1 with
          | nil => rw [hh1] at hne; simp at hne
          | cons n0 ns =>
              have hn0 : ¬ n0 = '\r' := by
                have hmem := List.all_eq_true.mp hnall n0
                  (by rw [hh1]; exact List.mem_cons_self _ _)
                intro hcon
                subst hcon
                simp at hmem
              have hinput : serHeaders (h :: t) ++ '\r' :: '\n' :: tail
                  = n0 :: (ns ++ ':' :: ' ' :: (h.2 ++ '\r' :: '\n' ::
                      (serHeaders t ++ '\r' :: '\n' :: tail))) := by
                simp [serHeaders, headerBytes, crlf, hh1, List.append_assoc]
              rw [hinput]
              simp only [headersLoop]
              rw [if_neg hn0, if_neg (show ¬ cap ≤ acc.length by
                simp only [List.length_cons] at hcap; omega)]
              have hline : parseHeaderLine (n0 :: (ns ++ ':' :: ' ' ::
                  (h.2 ++ '\r' :: '\n' :: (serHeaders t ++ '\r' :: '\n' :: tail))))
                  = .ok (h.1, h.2) (serHeaders t ++ '\r' :: '\n' :: tail) := by
                rw [show n0 :: (ns ++ ':' :: ' ' :: (h.2 ++ '\r' :: '\n' ::
                    (serHeaders t ++ '\r' :: '\n' :: tail)))
                    = (n0 :: ns) ++ ':' :: ' ' :: (h.2 ++ '\r' :: '\n' ::
                    (serHeaders t ++ '\r' :: '\n' :: tail)) from rfl, ← hh1]
                exact parseHeaderLine_ser h.1 h.2 _ hname hval
              rw [hline]
              have hrec := ih ((h.1, h.2) :: acc) tail f
                (fun x hx => hgood x (List.mem_cons_of_mem h hx))
                (by simp only [List.length_cons] at hcap ⊢; omega)
                (by simp only [List.length_cons] at hfuel; omega)
              simpa [List.reverse_cons, List.append_assoc] using hrec

theorem headersLoop_tooMany (cap : Nat) (hs : List (List Char × List Char)) :
    ∀ (acc : List (List Char × List Char)) (tail : List Char) (fuel : Nat),
      (∀ h ∈ hs, goodHeader h = true) →
      acc.length ≤ cap →
      cap < acc.length + hs.length →
      hs.length < fuel →
      headersLoop cap fuel (serHeaders hs ++ '\r' :: '\n' :: tail) acc
        = .bad .tooManyHeaders := by
  induction hs with
  | nil =>
      intro acc tail fuel _ hacc hcap _
      exact absurd hcap (by simp; omega)
  | cons h t ih =>
      intro acc tail fuel hgood hacc hcap hfuel
      cases fuel with
      | zero => exact absurd hfuel (by omega)
      | succ f =>
          obtain ⟨hname, hval⟩ := Bool.and_eq_true _ _ |>.mp
            (hgood h (List.mem_cons_self h t))
          obtain ⟨hne, hnall⟩ := Bool.and_eq_true _ _ |>.mp hname
          cases hh1 : h.1 with
          | nil => rw [hh1] at hne; simp at hne
          | cons n0 ns =>
              have hn0 : ¬ n0 = '\r' := by
                have hmem := List.all_eq_true.mp hnall n0
                  (by rw [hh1]; exact List.mem_cons_self _ _)
                intro hcon
                subst hcon
                simp at hmem
              have hinput : serHeaders (h :: t) ++ '\r' :: '\n' :: tail
                  = n0 :: (ns ++ ':' :: ' ' :: (h.2 ++ '\r' :: '\n' ::
                      (serHeaders t ++ '\r' :: '\n' :: tail))) := by
                simp [serHeaders, headerBytes, crlf, hh1, List.append_assoc]
              rw [hinput]
              simp only [headersLoop]
              rw [if_neg hn0]
              by_cases hfull : cap ≤ acc.length
              · rw [if_pos hfull]
              · rw [if_neg hfull]
                have hline : parseHeaderLine (n0 :: (ns ++ ':' :: ' ' ::
                    (h.2 ++ '\r' :: '\n' :: (serHeaders t ++ '\r' :: '\n' :: tail))))
                    = .ok (h.1, h.2) (serHeaders t ++ '\r' :: '\n' :: tail) := by
                  rw [show n0 :: (ns ++ ':' :: ' ' :: (h.2 ++ '\r' :: '\n' ::
                      (serHeaders t ++ '\r' :: '\n' :: tail)))
                      = (n0 :: ns) ++ ':' :: ' ' :: (h.2 ++ '\r' :: '\n' ::
                      (serHeaders t ++ '\r' :: '\n' :: tail)) from rfl, ← hh1]
                  exact parseHeaderLine_ser h.1 h.2 _ hname hval
                rw [hline]
                exact ih ((h.1, h.2) :: acc) tail f
                  (fun x hx => hgood x (List.mem_cons_of_mem h hx))
                  (by simp only [List.length_cons]; omega)
                  (by simp only [List.length_cons] at hcap ⊢; omega)
                  (by simp only [List.length_cons] at hfuel; omega)

theorem http11_data :
    (("HTTP/1.1 ").data) = ['H', 'T', 'T', 'P', '/', '1', '.', '1', ' '] := rfl

theorem http1_data :
    (("HTTP/1.").data) = ['H', 'T', 'T', 'P', '/', '1', '.'] := rfl

theorem parseVersion_one (R : List Char) :
    parseVersion ('H' :: 'T' :: 'T' :: 'P' :: '/' :: '1' :: '.' :: '1' :: R)
      = .ok 1 R := by
  simp [parseVersion, expectStr, http1_data]

theorem parseCode_digits (c1 c2 c3 : Char) (R : List Char)
    (h1 : (digitVal c1).isSome = true) (h2 : (digitVal c2).isSome = true)
    (h3 : (digitVal c3).isSome = true) :
    parseCode (c1 :: c2 :: c3 :: R) = .ok (codeVal c1 c2 c3) R := by
  obtain ⟨a, ha⟩ := Option.isSome_iff_exists.mp h1
  obtain ⟨b, hb⟩ := Option.isSome_iff_exists.mp h2
  obtain ⟨c, hc⟩ := Option.isSome_iff_exists.mp h3
  simp [parseCode, ha, hb, hc, codeVal]

theorem parseReason_ser (reason R : List Char) (hr : goodReason reason = true) :
    parseReason (reason ++ '\r' :: '\n' :: R) = .ok reason R := by
  have hall : ∀ c ∈ reason, (c != '\r') = true := List.all_eq_true.mp hr
  have ht : (reason ++ '\r' :: '\n' :: R).takeWhile (fun c => c != '\r')
      = reason := by
    rw [takeWhile_all_append _ _ hall, takeWhile_head_false _ (by decide),
      List.append_nil]
  have hd : (reason ++ '\r' :: '\n' :: R).dropWhile (fun c => c != '\r')
      = '\r' :: '\n' :: R := by
    rw [dropWhile_all_append _ _ hall]
    exact dropWhile_head_false _ (by decide)
  simp [parseReason, ht, hd]

theorem responseParse_mk_complete (cap : Nat) (c1 c2 c3 : Char)
    (reason : List Char) (hs : List (List Char × List Char)) (tail : List Char)
    (h1 : (digitVal c1).isSome = true) (h2 : (digitVal c2).isSome = true)
    (h3 : (digitVal c3).isSome = true) (hr : goodReason reason = true)
    (hh : ∀ h ∈ hs, goodHeader h = true) (hcap : hs.length ≤ cap) :
    responseParse cap (mkResponse c1 c2 c3 reason hs ++ tail)
      = .complete ⟨1, codeVal c1 c2 c3, reason, hs⟩
          (mkResponse c1 c2 c3 reason hs).length := by
  have hshape : mkResponse c1 c2 c3 reason hs ++ tail
      = 'H' :: 'T' :: 'T' :: 'P' :: '/' :: '1' :: '.' :: '1' :: ' ' ::
          c1 :: c2 :: c3 :: ' ' :: (reason ++ '\r' :: '\n' ::
            (serHeaders hs ++ '\r' :: '\n' :: tail)) := by
    simp [mkResponse, http11_data, List.append_assoc]
  have hv : parseVersion ('H' :: 'T' :: 'T' :: 'P' :: '/' :: '1' :: '.' :: '1' ::
      ' ' :: c1 :: c2 :: c3 :: ' ' :: (reason ++ '\r' :: '\n' ::
        (serHeaders hs ++ '\r' :: '\n' :: tail)))
      = .ok 1 (' ' :: c1 :: c2 :: c3 :: ' ' :: (reason ++ '\r' :: '\n' ::
        (serHeaders hs ++ '\r' :: '\n' :: tail))) := parseVersion_one _
  have hcode : parseCode (c1 :: c2 :: c3 :: ' ' :: (reason ++ '\r' :: '\n' ::
      (serHeaders hs ++ '\r' :: '\n' :: tail)))
      = .ok (codeVal c1 c2 c3) (' ' :: (reason ++ '\r' :: '\n' ::
        (serHeaders hs ++ '\r' :: '\n' :: tail))) :=
    parseCode_digits c1 c2 c3 _ h1 h2 h3
  have htail : parseStatusTail (' ' :: (reason ++ '\r' :: '\n' ::
      (serHeaders hs ++ '\r' :: '\n' :: tail)))
      = .ok reason (serHeaders hs ++ '\r' :: '\n' :: tail) := by
    simp [parseStatusTail, parseReason_ser _ _ hr]
  have hloop : headersLoop cap
      ((serHeaders hs ++ '\r' :: '\n' :: tail).length + 1)
      (serHeaders hs ++ '\r' :: '\n' :: tail) [] = .ok hs tail := by
    have := headersLoop_ser cap hs [] tail
      ((serHeaders hs ++ '\r' :: '\n' :: tail).length + 1) hh
      (by simpa using hcap)
      (by
        have := length_le_serHeaders hs
        simp only [List.length_append, List.length_cons]
        omega)
    simpa using this
  rw [hshape]
  simp only [responseParse, hv, hcode, htail, hloop, eq_self_iff_true, if_true]
  congr 1
  simp only [mkResponse, http11_data, List.length_append, List.length_cons,
    List.length_nil]
  omega

theorem responseParse_mk_tooMany (cap : Nat) (c1 c2 c3 : Char)
    (reason : List Char) (hs : List (List Char × List Char)) (tail : List Char)
    (h1 : (digitVal c1).isSome = true) (h2 : (digitVal c2).isSome = true)
    (h3 : (digitVal c3).isSome = true) (hr : goodReason reason = true)
    (hh : ∀ h ∈ hs, goodHeader h = true) (hcap : cap < hs.length) :
    responseParse cap (mkResponse c1 c2 c3 reason hs ++ tail)
      = .err .tooManyHeaders := by
  have hshape : mkResponse c1 c2 c3 reason hs ++ tail
      = 'H' :: 'T' :: 'T' :: 'P' :: '/' :: '1' :: '.' :: '1' :: ' ' ::
          c1 :: c2 :: c3 :: ' ' :: (reason ++ '\r' :: '\n' ::
            (serHeaders hs ++ '\r' :: '\n' :: tail)) := by
    simp [mkResponse, http11_data, List.append_assoc]
  have hv : parseVersion ('H' :: 'T' :: 'T' :: 'P' :: '/' :: '1' :: '.' :: '1' ::
      ' ' :: c1 :: c2 :: c3 :: ' ' :: (reason ++ '\r' :: '\n' ::
        (serHeaders hs ++ '\r' :: '\n' :: tail)))
      = .ok 1 (' ' :: c1 :: c2 :: c3 :: ' ' :: (reason ++ '\r' :: '\n' ::
        (serHeaders hs ++ '\r' :: '\n' :: tail))) := parseVersion_one _
  have hcode : parseCode (c1 :: c2 :: c3 :: ' ' :: (reason ++ '\r' :: '\n' ::
      (serHeaders hs ++ '\r' :: '\n' :: tail)))
      = .ok (codeVal c1 c2 c3) (' ' :: (reason ++ '\r' :: '\n' ::
        (serHeaders hs ++ '\r' :: '\n' :: tail))) :=
    parseCode_digits c1 c2 c3 _ h1 h2 h3
  have htail : parseStatusTail (' ' :: (reason ++ '\r' :: '\n' ::
      (serHeaders hs ++ '\r' :: '\n' :: tail)))
      = .ok reason (serHeaders hs ++ '\r' :: '\n' :: tail) := by
    simp [parseStatusTail, parseReason_ser _ _ hr]
  have hloop : headersLoop cap
      ((serHeaders hs ++ '\r' :: '\n' :: tail).length + 1)
      (serHeaders hs ++ '\r' :: '\n' :: tail) [] = .bad .tooManyHeaders := by
    have := headersLoop_tooMany cap hs [] tail
      ((serHeaders hs ++ '\r' :: '\n' :: tail).length + 1) hh
      (by simp)
      (by simpa using hcap)
      (by
        have := length_le_serHeaders hs
        simp only [List.length_append, List.length_cons]
        omega)
    simpa using this
  rw [hshape]
  simp only [responseParse, hv, hcode, htail, hloop, eq_self_iff_true, if_true]

theorem parse_headers_fail_not_premature {ε α : Type} (auth : Head → Except ε α)
    (buf : List Char) (e : HsError ε) (b : List Char)
    (h : HandshakeProto.parse_headers auth buf = (.fail e, b)) :
    e ≠ .prematureResponseHeaders := by
  unfold HandshakeProto.parse_headers at h
  cases htt : twoTier buf with
  | err e2 =>
      simp only [htt, Prod.mk.injEq, PHOut.fail.injEq] at h
      obtain ⟨h1, -⟩ := h
      subst h1
      simp
  | incomplete =>
      simp only [htt] at h
      simp at h
  | complete ph n =>
      by_cases hv : ph.version ≠ 1
      · simp only [htt] at h
        rw [if_pos hv] at h
        simp at h
      · simp only [htt] at h
        rw [if_neg hv] at h
        cases ha : auth { ph with version := 1 } with
        | error e2 =>
            simp only [ha, Prod.mk.injEq, PHOut.fail.injEq] at h
            obtain ⟨h1, -⟩ := h
            subst h1
            simp
        | ok a =>
            simp only [ha] at h
            simp at h

/-! Claim theorems. -/

/-- Claim C1: evaluation of the reserved-name contract at the failing input.
check_header flags Connection, Upgrade and Sec-WebSocket-Key
case-insensitively, so add_header aborts on those; but it lets
Sec-WebSocket-Version (and any other Sec-WebSocket-* name such as
Sec-WebSocket-Extensions) through, so add_header and format_header write
that header normally instead of aborting, contradicting the claim and the
source's own doc comment. -/
theorem claimC1_reserved_names_eval :
    check_header ((("Connection").data)) = true ∧
    check_header ((("cOnNeCtIoN").data)) = true ∧
    check_header ((("Upgrade").data)) = true ∧
    check_header ((("UPGRADE").data)) = true ∧
    check_header ((("sec-websocket-key").data)) = true ∧
    check_header ((("Sec-WebSocket-Version").data)) = false ∧
    check_header ((("Sec-WebSocket-Extensions").data)) = false ∧
    Encoder.add_header ⟨.Headers, []⟩ ((("Connection").data)) ((("close").data))
      = .contractViolation ∧
    Encoder.add_header ⟨.Headers, []⟩ ((("Sec-WebSocket-Version").data))
        ((("13").data))
      = .ok ⟨.Headers, headerBytes ((("Sec-WebSocket-Version").data))
          ((("13").data))⟩ ∧
    Encoder.format_header ⟨.Headers, []⟩ ((("Sec-WebSocket-Version").data))
        ((("13").data))
      = .ok ⟨.Headers, headerBytes ((("Sec-WebSocket-Version").data))
          ((("13").data))⟩ := by
  decide

/-- Claim C2: done() on an encoder whose request line and caller headers
are already written (state Headers, arbitrary buffer contents b) appends
exactly the four mandatory upgrade headers in the fixed order Connection,
Upgrade, Sec-WebSocket-Key, Sec-WebSocket-Version, followed by the
header-block terminator, after all previously written output, and returns
the completion buffer. -/
theorem claimC2_done_fixed_suffix (b key : List Char) :
    Encoder.done ⟨.Headers, b⟩ key
      = .ok (b ++ (headerBytes ((("Connection").data)) ((("upgrade").data))
          ++ (headerBytes ((("Upgrade").data)) ((("websocket").data))
          ++ (headerBytes ((("Sec-WebSocket-Key").data)) key
          ++ (headerBytes ((("Sec-WebSocket-Version").data)) ((("13").data))
          ++ crlf))))) := by
  simp [Encoder.done, MessageState.add_header, MessageState.done_headers,
    List.append_assoc]

/-- Claim C3 counterexample: a poll step on a closed connection whose input
buffer already holds a complete header block still fails with
PrematureResponseHeaders, because the source checks the end-of-stream flag
before attempting to parse; this refutes the claim that a complete header
block already present in the buffer never yields this error. -/
theorem claimC3_counterexample :
    responseParse MIN_HEADERS ((("HTTP/1.1 101 Ok\r\n\r\n").data))
      = .complete ⟨1, 101, (("Ok").data), []⟩ 19 ∧
    HandshakeProto.poll (SimpleAuthorizer.headers_received Unit) false false
        true ((("HTTP/1.1 101 Ok\r\n\r\n").data))
      = (.fail .prematureResponseHeaders,
          (("HTTP/1.1 101 Ok\r\n\r\n").data)) := by
  decide

/-- Claim C3 amended: a poll step fails with PrematureResponseHeaders
exactly when the flush and the read succeeded and the peer has closed the
connection, regardless of the input buffer contents (the end-of-stream
check precedes parsing). -/
theorem claimC3_premature_iff_closed {ε α : Type} (auth : Head → Except ε α)
    (flushErr readErr closed : Bool) (buf : List Char) :
    (HandshakeProto.poll auth flushErr readErr closed buf).1
        = .fail .prematureResponseHeaders
      ↔ (flushErr = false ∧ readErr = false ∧ closed = true) := by
  unfold HandshakeProto.poll
  cases flushErr with
  | true => simp
  | false =>
    cases readErr with
    | true => simp
    | false =>
      cases closed with
      | true => simp
      | false =>
        simp only [Bool.false_eq_true, if_false, Bool.true_eq_false]
        cases hph : HandshakeProto.parse_headers auth buf with
        | mk out b2 =>
          cases out with
          | ok x => cases x <;> simp
          | fail e =>
              have hne : e ≠ .prematureResponseHeaders :=
                parse_headers_fail_not_premature auth buf e b2 hph
              simp [hne]
          | aborted => simp

/-- Claim C5: evaluation at the failing input, a complete HTTP/1.0
response. The parse completes with version 0, and parse_headers then hits
the source's unimplemented branch — a panic that aborts, modelled as the
aborted outcome — instead of returning a parse-category error as the claim
(and the commented-out VersionTooOld return in the source) intends. -/
theorem claimC5_version_guard_aborts :
    responseParse MIN_HEADERS ((("HTTP/1.0 101 Ok\r\n\r\n").data))
      = .complete ⟨0, 101, (("Ok").data), []⟩ 19 ∧
    HandshakeProto.parse_headers (SimpleAuthorizer.headers_received Unit)
        ((("HTTP/1.0 101 Ok\r\n\r\n").data))
      = (.aborted, (("HTTP/1.0 101 Ok\r\n\r\n").data)) := by
  decide

/-- Claim C8: on a poll step where flush and read succeeded, the peer has
not closed, and the accumulated input does not yet contain a complete
header block (the two-tier parse reports incomplete), the step returns the
suspended outcome with no error and leaves the input buffer intact. -/
theorem claimC8_incomplete_suspends {ε α : Type} (auth : Head → Except ε α)
    (buf : List Char) (h : twoTier buf = .incomplete) :
    HandshakeProto.poll auth false false false buf = (.notReady, buf) := by
  simp [HandshakeProto.poll, HandshakeProto.parse_headers, h]

/-- Claim C8 witness: the spec's own split-response example, the first read
delivering only part of the status line. -/
theorem claimC8_incomplete_suspends_witness :
    twoTier ((("HTTP/1.1 101 Switching").data)) = .incomplete ∧
    HandshakeProto.poll (SimpleAuthorizer.headers_received Unit) false false
        false ((("HTTP/1.1 101 Switching").data))
      = (.notReady, (("HTTP/1.1 101 Switching").data)) :=
  ⟨by decide, claimC8_incomplete_suspends _ _ (by decide)⟩

/-- Claim C10: when the two-tier parse completes and the authorizer rejects
the response head, the authorizer's error is the terminal result of
parse_headers and the input buffer is returned unchanged — consumption
happens only after the authorizer succeeds. -/
theorem claimC10_auth_error_atomic {ε α : Type} (auth : Head → Except ε α)
    (buf : List Char) (ph : Head) (n : Nat) (e : ε)
    (hp : twoTier buf = .complete ph n) (hv : ph.version = 1)
    (ha : auth { ph with version := 1 } = .error e) :
    HandshakeProto.parse_headers auth buf = (.fail (.authErr e), buf) := by
  simp [HandshakeProto.parse_headers, hp, hv, ha]

/-- Claim C10 witness: a complete response rejected by an authorizer that
returns error 7; the error propagates and the buffer is unchanged. -/
theorem claimC10_auth_error_atomic_witness :
    twoTier ((("HTTP/1.1 101 Ok\r\n\r\n").data))
      = .complete ⟨1, 101, (("Ok").data), []⟩ 19 ∧
    HandshakeProto.parse_headers
        (fun _ => (Except.error 7 : Except Nat Unit))
        ((("HTTP/1.1 101 Ok\r\n\r\n").data))
      = (.fail (.authErr 7), (("HTTP/1.1 101 Ok\r\n\r\n").data)) :=
  ⟨by decide, claimC10_auth_error_atomic _ _ ⟨1, 101, (("Ok").data), []⟩ 19 7
    (by decide) rfl rfl⟩

/-- Claim C4: two-tier header-table behaviour on a well-formed response
followed by arbitrary trailing bytes. With at most MAX_HEADERS headers the
handshake parse succeeds (consuming exactly the block and leaving the
tail); with more than MIN_HEADERS headers the first, 16-slot attempt fails
precisely with too many headers (so success beyond 16 headers is reached
through the single 1024-slot retry); with more than MAX_HEADERS headers
parse_headers fails with the too-many-headers parse error and no further
retry. -/
theorem claimC4_two_tier_capacity (c1 c2 c3 : Char) (reason : List Char)
    (hs : List (List Char × List Char)) (tail : List Char)
    (h1 : (digitVal c1).isSome = true) (h2 : (digitVal c2).isSome = true)
    (h3 : (digitVal c3).isSome = true) (hr : goodReason reason = true)
    (hh : ∀ h ∈ hs, goodHeader h = true) :
    (hs.length ≤ MAX_HEADERS →
      HandshakeProto.parse_headers (SimpleAuthorizer.headers_received Unit)
          (mkResponse c1 c2 c3 reason hs ++ tail)
        = (.ok (some ()), tail)) ∧
    (MIN_HEADERS < hs.length →
      responseParse MIN_HEADERS (mkResponse c1 c2 c3 reason hs ++ tail)
        = .err .tooManyHeaders) ∧
    (MAX_HEADERS < hs.length →
      HandshakeProto.parse_headers (SimpleAuthorizer.headers_received Unit)
          (mkResponse c1 c2 c3 reason hs ++ tail)
        = (.fail (.headerError .tooManyHeaders),
            mkResponse c1 c2 c3 reason hs ++ tail)) := by
  refine ⟨?_, ?_, ?_⟩
  · intro hle
    have htw : twoTier (mkResponse c1 c2 c3 reason hs ++ tail)
        = .complete ⟨1, codeVal c1 c2 c3, reason, hs⟩
            (mkResponse c1 c2 c3 reason hs).length := by
      by_cases h16 : hs.length ≤ MIN_HEADERS
      · have hc := responseParse_mk_complete MIN_HEADERS c1 c2 c3 reason hs
          tail h1 h2 h3 hr hh h16
        simp [twoTier, hc]
      · have hm := responseParse_mk_tooMany MIN_HEADERS c1 c2 c3 reason hs
          tail h1 h2 h3 hr hh (by omega)
        have hc := responseParse_mk_complete MAX_HEADERS c1 c2 c3 reason hs
          tail h1 h2 h3 hr hh hle
        simp [twoTier, hm, hc]
    have hstep : HandshakeProto.parse_headers
        (SimpleAuthorizer.headers_received Unit)
        (mkResponse c1 c2 c3 reason hs ++ tail)
        = (.ok (some ()),
            (mkResponse c1 c2 c3 reason hs ++ tail).drop
              (mkResponse c1 c2 c3 reason hs).length) := by
      simp [HandshakeProto.parse_headers, htw, SimpleAuthorizer.headers_received]
    rw [hstep, List.drop_left]
  · intro h16
    exact responseParse_mk_tooMany MIN_HEADERS c1 c2 c3 reason hs tail
      h1 h2 h3 hr hh h16
  · intro h1024
    have hm16 := responseParse_mk_tooMany MIN_HEADERS c1 c2 c3 reason hs tail
      h1 h2 h3 hr hh (by simp [MIN_HEADERS, MAX_HEADERS] at h1024 ⊢; omega)
    have hm1024 := responseParse_mk_tooMany MAX_HEADERS c1 c2 c3 reason hs tail
      h1 h2 h3 hr hh h1024
    have htw : twoTier (mkResponse c1 c2 c3 reason hs ++ tail)
        = .err .tooManyHeaders := by
      simp [twoTier, hm16, hm1024]
    simp [HandshakeProto.parse_headers, htw]

/-- Seventeen identical well-formed headers, one more than the 16-slot fast
path holds. -/
def h17 : List (List Char × List Char) :=
  List.replicate 17 (((("A").data)), ((("b").data)))

/-- Claim C4 witness: a response with 17 headers overflows the 16-slot
table yet parses successfully through the 1024-slot retry. -/
theorem claimC4_two_tier_capacity_witness :
    responseParse MIN_HEADERS (mkResponse '1' '0' '1' (("Ok").data) h17 ++ [])
      = .err .tooManyHeaders ∧
    HandshakeProto.parse_headers (SimpleAuthorizer.headers_received Unit)
        (mkResponse '1' '0' '1' (("Ok").data) h17 ++ [])
      = (.ok (some ()), []) :=
  ⟨(claimC4_two_tier_capacity '1' '0' '1' (("Ok").data) h17 []
      (by decide) (by decide) (by decide) (by decide) (by decide)).2.1
      (by decide),
   (claimC4_two_tier_capacity '1' '0' '1' (("Ok").data) h17 []
      (by decide) (by decide) (by decide) (by decide) (by decide)).1
      (by decide)⟩

/-- Claim C6: when the input buffer is a complete well-formed header block
followed by arbitrary trailing bytes and the authorizer accepts the parsed
head, the poll step completes and consumes exactly the parsed block,
leaving precisely the trailing bytes in the input buffer for the
post-handshake framed reader. -/
theorem claimC6_exact_consumption {ε α : Type} (auth : Head → Except ε α)
    (a : α) (c1 c2 c3 : Char) (reason : List Char)
    (hs : List (List Char × List Char)) (tail : List Char)
    (h1 : (digitVal c1).isSome = true) (h2 : (digitVal c2).isSome = true)
    (h3 : (digitVal c3).isSome = true) (hr : goodReason reason = true)
    (hh : ∀ h ∈ hs, goodHeader h = true) (hcap : hs.length ≤ MAX_HEADERS)
    (ha : auth ⟨1, codeVal c1 c2 c3, reason, hs⟩ = .ok a) :
    HandshakeProto.poll auth false false false
        (mkResponse c1 c2 c3 reason hs ++ tail)
      = (.ready a, tail) := by
  have htw : twoTier (mkResponse c1 c2 c3 reason hs ++ tail)
      = .complete ⟨1, codeVal c1 c2 c3, reason, hs⟩
          (mkResponse c1 c2 c3 reason hs).length := by
    by_cases h16 : hs.length ≤ MIN_HEADERS
    · have hc := responseParse_mk_complete MIN_HEADERS c1 c2 c3 reason hs
        tail h1 h2 h3 hr hh h16
      simp [twoTier, hc]
    · have hm := responseParse_mk_tooMany MIN_HEADERS c1 c2 c3 reason hs
        tail h1 h2 h3 hr hh (by omega)
      have hc := responseParse_mk_complete MAX_HEADERS c1 c2 c3 reason hs
        tail h1 h2 h3 hr hh hcap
      simp [twoTier, hm, hc]
  have hstep : HandshakeProto.parse_headers auth
      (mkResponse c1 c2 c3 reason hs ++ tail)
      = (.ok (some a),
          (mkResponse c1 c2 c3 reason hs ++ tail).drop
            (mkResponse c1 c2 c3 reason hs).length) := by
    simp [HandshakeProto.parse_headers, htw, ha]
  simp only [HandshakeProto.poll, if_neg (by decide : ¬ false = true)]
  rw [hstep, List.drop_left]

/-- Claim C6 witness: a one-header response followed by the bytes FRAME,
accepted by an authorizer returning 5; the step is ready with 5 and the
buffer retains exactly FRAME. -/
theorem claimC6_exact_consumption_witness :
    HandshakeProto.poll (fun _ => (Except.ok 5 : Except Unit Nat)) false false
        false
        (mkResponse '1' '0' '1' (("Ok").data)
          [((("Upgrade").data), (("websocket").data))] ++ (("FRAME").data))
      = (.ready 5, (("FRAME").data)) :=
  claimC6_exact_consumption (fun _ => (Except.ok 5 : Except Unit Nat)) 5
    '1' '0' '1' (("Ok").data) [((("Upgrade").data), (("websocket").data))]
    (("FRAME").data) (by decide) (by decide) (by decide) (by decide)
    (by decide) (by decide) rfl

/-- Modelled from the spec: the header list of the section 6 wire format —
Host, Origin, User-Agent from the default authorizer, then the four fixed
upgrade headers, in that order, each once. -/
def sevenHeaders (host path key ua : List Char) :
    List (List Char × List Char) :=
  [ ((("Host").data), host),
    ((("Origin").data), (("http://").data) ++ host ++ path),
    ((("User-Agent").data), (("tk-http/").data) ++ ua),
    ((("Connection").data), (("upgrade").data)),
    ((("Upgrade").data), (("websocket").data)),
    ((("Sec-WebSocket-Key").data), key),
    ((("Sec-WebSocket-Version").data), (("13").data)) ]

/-- Modelled from the spec: the exact request wire format of section 6:
request line, the seven headers, terminating blank line. -/
def specRequestWire (host path key ua : List Char) : List Char :=
  (("GET ").data) ++ path ++ ((" HTTP/1.1").data) ++ crlf ++
    serHeaders (sevenHeaders host path key ua) ++ crlf

set_option maxRecDepth 8000 in
/-- Claim C7: the default authorizer serializes, for any host and path (and
any generated key and crate version), exactly the spec's request wire
format — the header block holds exactly Host, Origin (http:// plus host
plus path), User-Agent, Connection, Upgrade, Sec-WebSocket-Key and
Sec-WebSocket-Version, each once, in that order, as also recovered
verbatim by the header-line parser — and headers_received always succeeds
with unit output. -/
theorem claimC7_simple_authorizer (host path key ua : List Char)
    (hhost : goodValue host = true)
    (hpath : path.all (fun c => c != '\r' && c != '\n') = true)
    (hkey : goodValue key = true)
    (hua : ua.all (fun c => c != '\r' && c != '\n') = true) :
    SimpleAuthorizer.write_headers host path key ua ⟨.RequestStart, []⟩
      = .ok (specRequestWire host path key ua) ∧
    headersLoop MAX_HEADERS
        ((serHeaders (sevenHeaders host path key ua)).length + 1)
        (serHeaders (sevenHeaders host path key ua) ++ '\r' :: '\n' :: []) []
      = .ok (sevenHeaders host path key ua) [] ∧
    ∀ (ε : Type) (h : Head), SimpleAuthorizer.headers_received ε h = .ok () := by
  have hOriginVal : goodValue ((("http://").data) ++ host ++ path) = true := by
    obtain ⟨hall, -⟩ := Bool.and_eq_true _ _ |>.mp hhost
    simp only [goodValue, Bool.and_eq_true]
    refine ⟨?_, ?_⟩
    · simp only [List.all_append, Bool.and_eq_true]
      exact ⟨⟨by decide, hall⟩, hpath⟩
    · have hh : (((("http://").data) ++ host ++ path)).head? = some 'h' := rfl
      rw [hh]
      decide
  have hUAVal : goodValue ((("tk-http/").data) ++ ua) = true := by
    simp only [goodValue, Bool.and_eq_true]
    refine ⟨?_, ?_⟩
    · simp only [List.all_append, Bool.and_eq_true]
      exact ⟨by decide, hua⟩
    · have hh : (((("tk-http/").data) ++ ua)).head? = some 't' := rfl
      rw [hh]
      decide
  have hgood : ∀ h ∈ sevenHeaders host path key ua, goodHeader h = true := by
    intro h hm
    simp only [sevenHeaders, List.mem_cons, List.not_mem_nil, or_false] at hm
    rcases hm with h1 | h2 | h3 | h4 | h5 | h6 | h7
    · subst h1
      simp only [goodHeader, Bool.and_eq_true]
      exact ⟨by decide, hhost⟩
    · subst h2
      simp only [goodHeader, Bool.and_eq_true]
      exact ⟨by decide, hOriginVal⟩
    · subst h3
      simp only [goodHeader, Bool.and_eq_true]
      exact ⟨by decide, hUAVal⟩
    · subst h4
      decide
    · subst h5
      decide
    · subst h6
      simp only [goodHeader, Bool.and_eq_true]
      exact ⟨by decide, hkey⟩
    · subst h7
      decide
  refine ⟨?_, ?_, fun ε h => rfl⟩
  · have hH : check_header ((("Host").data)) = false := by decide
    have hO : check_header ((("Origin").data)) = false := by decide
    have hU : check_header ((("User-Agent").data)) = false := by decide
    simp [SimpleAuthorizer.write_headers, Encoder.request_line,
      Encoder.add_header, Encoder.format_header, Encoder.done,
      MessageState.request_line, MessageState.add_header,
      MessageState.done_headers, hH, hO, hU, specRequestWire, sevenHeaders,
      serHeaders, headerBytes, crlf, List.append_assoc]
  · have hmain := headersLoop_ser MAX_HEADERS (sevenHeaders host path key ua)
      [] [] ((serHeaders (sevenHeaders host path key ua)).length + 1) hgood
      (by simp [sevenHeaders, MAX_HEADERS])
      (by
        have hl := length_le_serHeaders (sevenHeaders host path key ua)
        have h7 : (sevenHeaders host path key ua).length = 7 := by
          simp [sevenHeaders]
        omega)
    simpa using hmain

/-- Claim C7 witness: a concrete host, path, key and version. -/
theorem claimC7_simple_authorizer_witness :
    SimpleAuthorizer.write_headers (("example.com").data) (("/ws").data)
        (("KEY0").data) (("0.2").data) ⟨.RequestStart, []⟩
      = .ok (specRequestWire (("example.com").data) (("/ws").data)
          (("KEY0").data) (("0.2").data)) ∧
    headersLoop MAX_HEADERS
        ((serHeaders (sevenHeaders (("example.com").data) (("/ws").data)
          (("KEY0").data) (("0.2").data))).length + 1)
        (serHeaders (sevenHeaders (("example.com").data) (("/ws").data)
          (("KEY0").data) (("0.2").data)) ++ '\r' :: '\n' :: []) []
      = .ok (sevenHeaders (("example.com").data) (("/ws").data)
          (("KEY0").data) (("0.2").data)) [] :=
  ⟨(claimC7_simple_authorizer (("example.com").data) (("/ws").data)
      (("KEY0").data) (("0.2").data)
      (by decide) (by decide) (by decide) (by decide)).1,
   (claimC7_simple_authorizer (("example.com").data) (("/ws").data)
      (("KEY0").data) (("0.2").data)
      (by decide) (by decide) (by decide) (by decide)).2.1⟩

end Minihttp
